import Mathlib

/-!
Shallow embedding of the azbak library (Azure Blob Storage stream uploader)
and verification of its specification claims.

The embedding follows the JavaScript source:
* JS objects holding string values are modelled as association lists with
  unique keys and insertion order (`JSObj`), with `objSet` modelling property
  assignment, `objAssign` modelling lodash assign/merge for flat string maps,
  and `sortObject` modelling Utils.sortObject (keys sorted, then rebuilt).
* Machine numbers in the relevant code paths are non-negative integers, so
  they are modelled as Nat.  One JS quirk matters and is modelled explicitly:
  comparing a number with `undefined` is always false (`jsGtNum`).
* Fallible code (throw / Promise rejection) returns `Except String`.
* `crypto.createHmac('sha256', key)` is an external library primitive; it is
  modelled as an abstract function parameter `hmac : List Nat → String → List Nat`
  (key bytes and message to MAC digest bytes).
* Node's base64 (`Buffer.toString('base64')` / `Buffer.from(s, 'base64')`) is
  implemented concretely (RFC 4648 alphabet, lenient decode).
-/

namespace Azbak

/-! ## Character classes used by the blob-name regular expression -/

/-- Lowercase ASCII letter or decimal digit, the class written as a-z0-9 in
the source regular expression. -/
def isLowerAlnum (c : Char) : Bool :=
  (97 ≤ c.toNat && c.toNat ≤ 122) || (48 ≤ c.toNat && c.toNat ≤ 57)

/-- Lowercase ASCII letter, digit, or hyphen: the class a-z0-9 plus the
hyphen, as in the middle of the container pattern. -/
def isLowerAlnumHyphen (c : Char) : Bool :=
  isLowerAlnum c || c = '-'

/-- JS String.prototype.toLowerCase for the ASCII strings handled here. -/
def lowerChar (c : Char) : Char :=
  if 65 ≤ c.toNat ∧ c.toNat ≤ 90 then Char.ofNat (c.toNat + 32) else c

/-- Lowercase an ASCII string character by character. -/
def toLowerStr (s : String) : String :=
  String.mk (s.data.map lowerChar)

/-- Whether the first list begins with the second. -/
def listStartsWith : List Char → List Char → Bool
  | _, [] => true
  | [], _ :: _ => false
  | c :: cs, d :: ds => c = d && listStartsWith cs ds

/-- JS String.prototype.substring(1): drop the first character. -/
def strDrop1 (s : String) : String :=
  String.mk (s.data.drop 1)

/-! ## JS object model (string-valued flat objects) -/

/-- A JavaScript object with string values: key-value pairs in insertion
order.  All constructions below keep keys unique. -/
abbrev JSObj := List (String × String)

/-- Property read: obj[k], none when the key is absent (keys are unique,
so the first entry is the entry). -/
def objLookup : JSObj → String → Option String
  | [], _ => none
  | kv :: rest, k => if kv.1 = k then some kv.2 else objLookup rest k

/-- Last-wins read over a possibly duplicated pair list (what repeated
property assignment of every pair would leave for this key). -/
def objLookupLast : JSObj → String → Option String
  | [], _ => none
  | kv :: rest, k =>
      match objLookupLast rest k with
      | some v => some v
      | none => if kv.1 = k then some kv.2 else none

/-- Property write obj[k] = v: overwrite in place when the key exists
(JS keeps the original insertion position), append otherwise. -/
def objSet : JSObj → String → String → JSObj
  | [], k, v => [(k, v)]
  | kv :: rest, k, v =>
      if kv.1 = k then (k, v) :: rest else kv :: objSet rest k v

/-- lodash assign / merge of flat string maps: copy every property of src
into target, in src insertion order, later writes winning. -/
def objAssign (target src : JSObj) : JSObj :=
  src.foldl (fun acc kv => objSet acc kv.1 kv.2) target

/-- Object.keys: the keys in insertion order. -/
def objKeys (o : JSObj) : List String :=
  o.map (fun kv => kv.1)

/-- Utils.sortObject: Object.keys(obj).sort().reduce((r, k) => (r[k] = obj[k], r), \x7b\x7d).
Keys are sorted (JS Array.sort on strings is lexicographic by code unit;
all keys used here are ASCII) and the object is rebuilt in that order. -/
def sortObject (o : JSObj) : JSObj :=
  ((objKeys o).insertionSort (fun a b => a ≤ b)).map
    (fun k => (k, (objLookup o k).getD ""))

/-! ## Utils.zeroPad and decimal digit strings -/

/-- Fuel-driven decimal digit writer (structural recursion so that the
kernel can evaluate it; the fuel is always sufficient in natToChars). -/
def natToCharsAux : Nat → Nat → List Char
  | 0, _ => []
  | fuel + 1, n =>
      if n < 10 then [Char.ofNat (48 + n)]
      else natToCharsAux fuel (n / 10) ++ [Char.ofNat (48 + n % 10)]

/-- JS number-to-string for a non-negative integer (the expression
num + '' in Utils.zeroPad): decimal digits, no leading zeroes. -/
def natToChars (n : Nat) : List Char :=
  natToCharsAux (n + 1) n

/-- Utils.zeroPad(num, length): decimal string of num, left-padded with
zeroes to the requested length (length 0 falls back to 3, modelling the
JS default expression length = length || 3).  For num needing more digits
than the length the JS code throws on a negative repeat count; all uses in
the library stay in range, and Nat subtraction models the in-range case. -/
def zeroPad (num length : Nat) : String :=
  let len := if length = 0 then 3 else length
  let str := natToChars num
  String.mk (List.replicate (len - str.length) '0' ++ str)

/-- Fixed-width little-endian decimal digits of n (helper for reasoning
about zeroPad at a fixed width). -/
def lowDigitChars : Nat → Nat → List Char
  | 0, _ => []
  | w + 1, n => Char.ofNat (48 + n % 10) :: lowDigitChars w (n / 10)

/-- Numeric value of a big-endian ASCII digit string (helper used to state
that a padded decimal string decodes back to its number). -/
def digitsVal (l : List Char) : Nat :=
  l.foldl (fun acc c => acc * 10 + (c.toNat - 48)) 0

/-! ## Base64 (Node Buffer semantics, RFC 4648 with padding) -/

/-- The base64 alphabet: value 0..63 to character. -/
def sextetChar (n : Nat) : Char :=
  if n < 26 then Char.ofNat (65 + n)
  else if n < 52 then Char.ofNat (97 + (n - 26))
  else if n < 62 then Char.ofNat (48 + (n - 52))
  else if n = 62 then '+'
  else '/'

/-- Inverse of the base64 alphabet: character to value 0..63. -/
def sextetVal (c : Char) : Option Nat :=
  if 65 ≤ c.toNat && c.toNat ≤ 90 then some (c.toNat - 65)
  else if 97 ≤ c.toNat && c.toNat ≤ 122 then some (c.toNat - 97 + 26)
  else if 48 ≤ c.toNat && c.toNat ≤ 57 then some (c.toNat - 48 + 52)
  else if c = '+' then some 62
  else if c = '/' then some 63
  else none

/-- Buffer.prototype.toString('base64'): encode a byte list, with padding. -/
def base64EncodeBytes : List Nat → List Char
  | b0 :: b1 :: b2 :: rest =>
      sextetChar (b0 / 4) :: sextetChar ((b0 % 4) * 16 + b1 / 16) ::
      sextetChar ((b1 % 16) * 4 + b2 / 64) :: sextetChar (b2 % 64) ::
      base64EncodeBytes rest
  | [b0, b1] =>
      [sextetChar (b0 / 4), sextetChar ((b0 % 4) * 16 + b1 / 16),
       sextetChar ((b1 % 16) * 4), '=']
  | [b0] =>
      [sextetChar (b0 / 4), sextetChar ((b0 % 4) * 16), '=', '=']
  | [] => []

/-- Strict base64 decode of a padded character list back to bytes. -/
def base64DecodeChars : List Char → Option (List Nat)
  | [] => some []
  | c0 :: c1 :: c2 :: c3 :: rest => do
      let v0 ← sextetVal c0
      let v1 ← sextetVal c1
      if c2 = '=' then
        if c3 = '=' ∧ rest = [] then
          some [v0 * 4 + v1 / 16]
        else none
      else do
        let v2 ← sextetVal c2
        if c3 = '=' then
          if rest = [] then
            some [v0 * 4 + v1 / 16, (v1 % 16) * 16 + v2 / 4]
          else none
        else do
          let v3 ← sextetVal c3
          let tail ← base64DecodeChars rest
          some ((v0 * 4 + v1 / 16) :: ((v1 % 16) * 16 + v2 / 4) ::
                ((v2 % 4) * 64 + v3) :: tail)
  | _ => none

/-- UTF-8 bytes of an ASCII string (every string encoded in this library is
ASCII, so each character is one byte). -/
def asciiBytes (s : String) : List Nat :=
  s.data.map Char.toNat

/-- Decode groups of base64 values into bytes: a full quadruple gives three
bytes, a trailing triple two, a trailing pair one (helper for the lenient
Buffer.from decoder). -/
def sextetsToBytes : List Nat → List Nat
  | v0 :: v1 :: v2 :: v3 :: rest =>
      (v0 * 4 + v1 / 16) :: ((v1 % 16) * 16 + v2 / 4) :: ((v2 % 4) * 64 + v3) ::
      sextetsToBytes rest
  | [v0, v1, v2] => [v0 * 4 + v1 / 16, (v1 % 16) * 16 + v2 / 4]
  | [v0, v1] => [v0 * 4 + v1 / 16]
  | _ => []

/-- Buffer.from(s, 'base64'): lenient decode, ignoring every character
outside the alphabet (including padding). -/
def bufferFromBase64 (s : String) : List Nat :=
  sextetsToBytes (s.data.filterMap sextetVal)

/-! ## StreamUpload constants and static fields -/

/-- StreamUpload.defaultBlockSize = 20 * 1024 * 1024 bytes. -/
def defaultBlockSize : Nat := 20 * 1024 * 1024

/-- StreamUpload.maxBlockSize = 100 * 1024 * 1024 bytes. -/
def maxBlockSize : Nat := 100 * 1024 * 1024

/-- StreamUpload.maxBlocksPerBlob = 50000. -/
def maxBlocksPerBlob : Nat := 50000

/-- StreamUpload.defaultConcurrency = 3. -/
def defaultConcurrency : Nat := 3

/-- The numeric static fields of the StreamUpload class, by property name.
Reading any other property of the class object (in particular
StreamUpload.blockSize, which the putBlock guard references: blockSize is
only an instance accessor, not a static) yields undefined, modelled as
none. -/
def streamUploadStatics : String → Option Nat
  | "defaultBlockSize" => some defaultBlockSize
  | "maxBlockSize" => some maxBlockSize
  | "maxBlocksPerBlob" => some maxBlocksPerBlob
  | "defaultConcurrency" => some defaultConcurrency
  | _ => none

/-- JS comparison a > b where b may be undefined: any comparison with
undefined is NaN-tainted and evaluates to false. -/
def jsGtNum (a : Nat) (b : Option Nat) : Bool :=
  match b with
  | some n => a > n
  | none => false

/-- The size guard in putBlock: block.length > StreamUpload.blockSize
(the static property read, which is undefined). -/
def putBlockSizeCheckTriggers (len : Nat) : Bool :=
  jsGtNum len (streamUploadStatics "blockSize")

/-- Whether putBlock proceeds to issue the HTTP request for a Buffer of the
given byte length (it does whenever the size guard does not trigger). -/
def putBlockIssuesRequest (len : Nat) : Bool :=
  !(putBlockSizeCheckTriggers len)

/-! ## Final-response handling in putBlock and commitBlockBlob -/

/-- The error test applied to the final response in both putBlock and
commitBlockBlob: response.statusCode && (response.statusCode < 200 ||
response.statusCode > 300).  A numeric status is truthy when non-zero. -/
def responseIsError (statusCode : Nat) : Bool :=
  statusCode != 0 && (statusCode < 200 || statusCode > 300)

/-- The .then handler shared by putBlock and commitBlockBlob: throw a
request error carrying status code and message when the error test holds,
otherwise succeed with the response (status code, message) augmented with
the blob URL. -/
def handleResponse (statusCode : Nat) (statusMessage blobUrl : String) :
    Except String (Nat × String × String) :=
  if responseIsError statusCode then
    Except.error ("Request error (" ++ Nat.repr statusCode ++ "): " ++ statusMessage)
  else
    Except.ok (statusCode, statusMessage, blobUrl)

/-! ## Retry strategy (StreamUpload.requestRetryStrategy, requestretry) -/

/-- An attempt outcome: either a transport error (no response), or a
response with a status code. -/
structure AttemptOutcome where
  transportError : Bool
  statusCode : Nat

/-- StreamUpload.requestRetryStrategy: retry on any transport error; retry
on a 5xx status; otherwise do not retry. -/
def requestRetryStrategy (o : AttemptOutcome) : Bool :=
  if o.transportError then true
  else if o.statusCode ≥ 500 && o.statusCode < 600 then true
  else false

/-- maxAttempts passed to the request library by putBlock. -/
def putBlockMaxAttempts : Nat := 3

/-- maxAttempts passed to the request library by commitBlockBlob. -/
def commitMaxAttempts : Nat := 3

/-- Model of the requestretry loop: given at most maxAttempts attempts and
the sequence of outcomes, count the attempts actually made.  A retry is
made only while the strategy approves the last outcome and the budget is
not exhausted. -/
def retryAttempts (strategy : AttemptOutcome → Bool) :
    Nat → (Nat → AttemptOutcome) → Nat
  | 0, _ => 0
  | 1, _ => 1
  | n + 2, outs =>
      if strategy (outs 0) then
        1 + retryAttempts strategy (n + 1) (fun i => outs (i + 1))
      else 1

/-! ## Blob-name validation (StreamUpload constructor) -/

/-- The container alternative of the blob regular expression:
either the literal root container, or a label matching
a-z0-9 then 1..61 of a-z0-9 hyphen then a-z0-9 (3 to 63 characters,
lowercase alphanumerics and hyphens, first and last alphanumeric). -/
def validContainer (c : List Char) : Bool :=
  c == "$root".data ||
  (decide (3 ≤ c.length) && decide (c.length ≤ 63) &&
   c.all isLowerAlnumHyphen &&
   (match c.head? with | some h => isLowerAlnum h | none => false) &&
   (match c.getLast? with | some l => isLowerAlnum l | none => false))

/-- Try to match container-slash at this position: the characters up to the
next slash must form a valid container, and that slash must exist.  The
trailing (.*) group of the pattern matches anything, including the empty
string, so nothing after the second slash is constrained. -/
def checkContainerAt (rest : List Char) : Bool :=
  let cont := rest.takeWhile (fun c => c != '/')
  decide (cont.length < rest.length) && validContainer cont

/-- Unanchored search of the blob pattern over the string, as
String.prototype.match performs: try every position starting with a
slash. -/
def blobRegexMatch : List Char → Bool
  | [] => false
  | c :: rest => (c == '/' && checkContainerAt rest) || blobRegexMatch rest

/-- The blob-parameter validation in the StreamUpload constructor: the
value must be a non-empty string whose content matches the (unanchored)
pattern. -/
def blobParamValid (blob : String) : Bool :=
  !(blob == "") && blobRegexMatch blob.data

/-- Written from the words of the specification claim, for comparison with
the code: the string must have exactly the form slash container slash path
with a valid container and a path of 1 to 1024 arbitrary characters. -/
def claimBlobForm (s : String) : Bool :=
  match s.data with
  | c :: rest =>
      c == '/' &&
      (let cont := rest.takeWhile (fun d => d != '/')
       decide (cont.length < rest.length) && validContainer cont &&
       (let path := rest.drop (cont.length + 1)
        decide (1 ≤ path.length) && decide (path.length ≤ 1024)))
  | [] => false

/-! ## Upload orchestration: block sequencing and commit phase -/

/-- The suffix appended to the blob name for one sequence: empty with the
singleBlob option, else a dot and the three-digit sequence number. -/
def seqSuffix (singleBlob : Bool) (i : Nat) : String :=
  if singleBlob then "" else "." ++ zeroPad i 3

/-- Utils.zeroPad(blockNum, 5) converted to base64:
StreamUpload.generateBlockId. -/
def generateBlockId (blockNum : Nat) : String :=
  String.mk (base64EncodeBytes (asciiBytes (zeroPad blockNum 5)))

/-- Number of commit calls issued by the second phase of upload():
seqFull = chunkCount mod blocksPerBlob is zero;
seqCount = trunc(chunkCount / blocksPerBlob) + (seqFull then 0 else 1). -/
def commitSeqCount (chunkCount p : Nat) : Nat :=
  chunkCount / p + (if chunkCount % p = 0 then 0 else 1)

/-- Blocks committed for sequence i: blocksPerBlob for every sequence but
the last, the remainder for the last when the division is not exact. -/
def blocksInSeq (chunkCount p i : Nat) : Nat :=
  if i = commitSeqCount chunkCount p - 1 ∧ ¬(chunkCount % p = 0) then
    chunkCount % p
  else p

/-- The list of commit calls issued by the second phase of upload(), in
order: each entry is the committed block count and the sequence suffix. -/
def commitCalls (chunkCount p : Nat) (singleBlob : Bool) : List (Nat × String) :=
  (List.range (commitSeqCount chunkCount p)).map
    (fun i => (blocksInSeq chunkCount p i, seqSuffix singleBlob i))

/-- First phase of upload(): the transform function applied to each chunk
in stream order.  cc is the running chunk counter, n the number of chunks
still to come.  For each chunk: seqNum = trunc(cc / blocksPerBlob),
blockNum = cc mod blocksPerBlob; with the singleBlob option a chunk in a
later sequence rejects the whole upload; otherwise the block is uploaded
under (generateBlockId blockNum, seqSuffix).  Returns the trace of putBlock
calls. -/
def processChunks (p : Nat) (singleBlob : Bool) :
    Nat → Nat → Except String (List (String × String))
  | _, 0 => Except.ok []
  | cc, n + 1 =>
      let seqNum := cc / p
      let blockNum := cc % p
      if singleBlob ∧ seqNum > 0 then
        Except.error "singleBlob option is set, but stream is too big to fit one blob"
      else do
        let rest ← processChunks p singleBlob (cc + 1) n
        Except.ok ((generateBlockId blockNum, seqSuffix singleBlob seqNum) :: rest)

/-- upload() phase one over a stream that chunks into n blocks. -/
def uploadPhase1 (p : Nat) (singleBlob : Bool) (n : Nat) :
    Except String (List (String × String)) :=
  processChunks p singleBlob 0 n

/-! ## Authorization (request signing) -/

/-- The signing scheme name (this._keyType). -/
def authKeyType : String := "SharedKeyLite"

/-- The fixed API version header value (this._apiVersion). -/
def authApiVersion : String := "2016-05-31"

/-- qs.stringify for a flat string map: ampersand-joined key=value pairs
(the keys the library passes, comp=block and comp=blocklist, need no
percent-encoding). -/
def qsStringify (o : JSObj) : String :=
  String.intercalate "&" (o.map (fun kv => kv.1 ++ "=" ++ kv.2))

/-- One key=value pair as qs.parse reads it: text before the first equals
sign is the key, the rest the value, a bare key maps to the empty string. -/
def qsParsePair (part : String) : String × String :=
  match part.splitOn "=" with
  | [] => ("", "")
  | [k] => (k, "")
  | k :: rest => (k, String.intercalate "=" rest)

/-- qs.parse for flat string parameters: split on ampersands.  The empty
string parses to the empty object. -/
def qsParse (s : String) : JSObj :=
  if s = "" then [] else (s.splitOn "&").map qsParsePair

/-- Replace every embedded line feed or carriage return by a space, as the
per-header regular expression replace does during canonicalization. -/
def replaceCRLF (s : String) : String :=
  String.mk (s.data.map (fun c => if c = '\n' ∨ c = '\r' then ' ' else c))

/-- The optional extra argument of the Authorization constructor. -/
structure AuthExtra where
  contentMD5 : Option String := none
  contentType : Option String := none
  qs : Option JSObj := none

/-- The state of one Authorization object.  keyType and apiVersion are the
constants above (set in the constructor, never reassigned); date is the
x-ms-date value captured at construction (ambient current time, passed in
explicitly here). -/
structure Authorization where
  verb : String
  blob : String
  contentMD5 : Option String
  contentType : Option String
  qsParams : JSObj
  customHeaders : JSObj
  date : String
  storageAccountName : Option String
  storageAccountKey : Option String
  storageAccountSasToken : Option String

/-- The Authorization constructor.  Validates that the blob name is a
non-empty string starting with a slash; reads Content-MD5 and Content-Type
from the extra argument when they are non-empty strings; when a query
dictionary is given, stores it and appends its stringification to the blob
after a question mark. -/
def Authorization.make (verb blob : String) (extra : Option AuthExtra)
    (date : String) : Except String Authorization :=
  if blob = "" ∨ ¬ listStartsWith blob.data "/".data then
    Except.error "Parameter blob must be a string starting with /"
  else
    let md5 := match extra with
      | some e =>
        match e.contentMD5 with
        | some m => if m = "" then none else some m
        | none => none
      | none => none
    let cty := match extra with
      | some e =>
        match e.contentType with
        | some t => if t = "" then none else some t
        | none => none
      | none => none
    let q := match extra with
      | some e => e.qs
      | none => none
    Except.ok
      { verb := verb
        blob := match q with
          | some qv => blob ++ "?" ++ qsStringify qv
          | none => blob
        contentMD5 := md5
        contentType := cty
        qsParams := q.getD []
        customHeaders := []
        date := date
        storageAccountName := none
        storageAccountKey := none
        storageAccountSasToken := none }

/-- The headers getter: custom headers overridden by the built-in
x-ms-date and x-ms-version entries, the result key-sorted. -/
def headersOf (a : Authorization) : JSObj :=
  sortObject (objAssign (objAssign [] a.customHeaders)
    [("x-ms-date", a.date), ("x-ms-version", authApiVersion)])

/-- addCustomHeader(name, value): both must be non-empty strings and the
name must begin with x-ms- up to letter case; the header is stored under
the lowercased name. -/
def addCustomHeader (a : Authorization) (name value : String) :
    Except String Authorization :=
  if name = "" ∨ value = "" then
    Except.error "Parameters name and value must be non-empty strings"
  else if ¬ listStartsWith (toLowerStr name).data "x-ms-".data then
    Except.error "Header name does not start with x-ms-"
  else
    Except.ok { a with customHeaders := objSet a.customHeaders (toLowerStr name) value }

/-- setStorageAccount(name, key, sasToken): the name must be non-empty and
exactly one of key and sasToken must be a string of length above one.  A
token not starting with a question mark gets one prepended.  The token
field is only written in the token case (as in the source). -/
def setStorageAccount (a : Authorization) (name : String)
    (key sasToken : Option String) : Except String Authorization :=
  if name = "" then
    Except.error "Parameter name must be a non-empty string"
  else
    let hasKey := match key with
      | some k => decide (k.length > 1)
      | none => false
    let hasSas := match sasToken with
      | some t => decide (t.length > 1)
      | none => false
    if (!hasKey && !hasSas) || (hasKey && hasSas) then
      Except.error "One and only one of key and sasToken must be set and a non-empty string"
    else
      let a1 := { a with storageAccountName := some name
                         storageAccountKey := if hasKey then key else none }
      if hasSas then
        let t := sasToken.getD ""
        let t := if listStartsWith t.data "?".data then t else "?" ++ t
        Except.ok { a1 with storageAccountSasToken := some t }
      else
        Except.ok a1

/-- generateSignature: throws when no account name was ever set; returns
none in token mode; otherwise builds the canonical string (components
pushed onto a list and newline-joined, as in the source) and MACs it with
the base64-decoded key, returning the base64 digest. -/
def generateSignature (hmac : List Nat → String → List Nat)
    (a : Authorization) : Except String (Option String) :=
  match a.storageAccountName with
  | none => Except.error "You must set storage account name and key or SAS token"
  | some nm =>
    match a.storageAccountSasToken with
    | some _ => Except.ok none
    | none =>
      let components := [a.verb, a.contentMD5.getD "", a.contentType.getD "", ""]
      let allHeaders := headersOf a
      let joined := String.intercalate "\n"
        (allHeaders.map (fun kv => kv.1 ++ ":" ++ replaceCRLF kv.2))
      let resourceString := "/" ++ nm ++ a.blob
      let resourceString := match a.storageAccountSasToken with
        | some t => resourceString ++ t ++ "&api-version=" ++ authApiVersion
        | none => resourceString
      let baseString := String.intercalate "\n" (components ++ [joined, resourceString])
      match a.storageAccountKey with
      | none => Except.error "TypeError: key and token are both unset"
      | some k =>
        Except.ok (some (String.mk (base64EncodeBytes (hmac (bufferFromBase64 k) baseString))))

/-- generateAuthorizationHeader: none in token mode, otherwise the scheme
name, the account name and the signature (JS string concatenation). -/
def generateAuthorizationHeader (hmac : List Nat → String → List Nat)
    (a : Authorization) : Except String (Option String) :=
  match a.storageAccountSasToken with
  | some _ => Except.ok none
  | none =>
    match generateSignature hmac a with
    | Except.error e => Except.error e
    | Except.ok sig =>
      let sigStr := match sig with
        | some s => s
        | none => "null"
      let nmStr := match a.storageAccountName with
        | some nm => nm
        | none => "false"
      Except.ok (some (authKeyType ++ " " ++ nmStr ++ ":" ++ sigStr))

/-- requestHeaders: the sorted header map merged with the Authorization
header (when present) and the content headers. -/
def requestHeaders (hmac : List Nat → String → List Nat)
    (a : Authorization) : Except String JSObj :=
  match generateAuthorizationHeader hmac a with
  | Except.error e => Except.error e
  | Except.ok auth =>
    let m : JSObj := match auth with
      | some v => [("Authorization", v)]
      | none => []
    let m := match a.contentMD5 with
      | some v => m ++ [("Content-MD5", v)]
      | none => m
    let m := match a.contentType with
      | some v => m ++ [("Content-Type", v)]
      | none => m
    Except.ok (objAssign (objAssign [] (headersOf a)) m)

/-- querystring: in token mode, the token parameters (with the api-version
parameter added) merged over the caller-supplied query values; otherwise
just the caller-supplied query values. -/
def querystring (a : Authorization) : JSObj :=
  match a.storageAccountSasToken with
  | some tok =>
    let qsSas := objSet (qsParse (strDrop1 tok)) "api-version" authApiVersion
    objAssign (objAssign [] a.qsParams) qsSas
  | none => a.qsParams

/-- A sequence of addCustomHeader calls applied in order (a failing call
throws and aborts the sequence). -/
def applyCustomHeaders (a : Authorization) :
    List (String × String) → Except String Authorization
  | [] => Except.ok a
  | (n, v) :: rest =>
      match addCustomHeader a n v with
      | Except.error e => Except.error e
      | Except.ok a2 => applyCustomHeaders a2 rest

/-! ## Statements written from the words of the specification (for
comparison with the code-derived definitions above) -/

/-- The canonicalized header block as the specification words it: each
sorted header rendered as name colon value with embedded CR and LF
replaced by spaces, one per line. -/
def canonHeaderBlock (a : Authorization) : String :=
  String.intercalate "\n"
    ((headersOf a).map (fun kv => kv.1 ++ ":" ++ replaceCRLF kv.2))

/-- The canonical string to sign as the specification claim words it: the
newline-joined sequence of verb, Content-MD5 or empty, Content-Type or
empty, an empty line, the canonicalized header block, and the
canonicalized resource (slash, account name, resource path). -/
def specCanonicalString (a : Authorization) (accountName : String) : String :=
  String.intercalate "\n"
    [a.verb, a.contentMD5.getD "", a.contentType.getD "", "",
     canonHeaderBlock a, "/" ++ accountName ++ a.blob]

/-! # Theorems -/

/-! ## Commit-phase arithmetic (claim C1) -/

theorem commitSeqCount_eq_ceil (c p : Nat) (hp : 0 < p) :
    commitSeqCount c p = (c + p - 1) / p := by
  unfold commitSeqCount
  have hd := Nat.div_add_mod c p
  have hrp : c % p < p := Nat.mod_lt c hp
  by_cases h : c % p = 0
  · rw [if_pos h]
    have h2 : c + p - 1 = p * (c / p) + (p - 1) := by omega
    have h3 : (p * (c / p) + (p - 1)) / p = c / p + (p - 1) / p :=
      Nat.mul_add_div hp (c / p) (p - 1)
    have h4 : (p - 1) / p = 0 := Nat.div_eq_of_lt (by omega)
    rw [h2, h3, h4]
  · rw [if_neg h]
    have h2 : c + p - 1 = p * (c / p) + (c % p + p - 1) := by omega
    have h3 : (p * (c / p) + (c % p + p - 1)) / p = c / p + (c % p + p - 1) / p :=
      Nat.mul_add_div hp (c / p) (c % p + p - 1)
    have h4 : (c % p + p - 1) / p = 1 :=
      Nat.div_eq_of_lt_le (by omega) (by omega)
    rw [h2, h3, h4]

theorem commitCalls_getD (c p i : Nat) (sb : Bool)
    (h : i < commitSeqCount c p) :
    (commitCalls c p sb).getD i (0, "") = (blocksInSeq c p i, seqSuffix sb i) := by
  simp [commitCalls, List.getD, List.getElem?_map, List.getElem?_range, h]

/-- C1 (amended): for blockCount = c and blocksPerBlob = p the commit phase
issues exactly ceil(c / p) commitBlockBlob calls; in particular an empty
stream (c = 0) issues none.  Every sequence except the last is committed
with p blocks, and the last (when c is positive) with c mod p blocks, or p
blocks when p divides c. -/
theorem commit_phase_calls (c p : Nat) (sb : Bool) (hp : 0 < p) :
    ((commitCalls c p sb).length = (c + p - 1) / p) ∧
    (∀ i, i + 1 < (commitCalls c p sb).length →
      ((commitCalls c p sb).getD i (0, "")).1 = p) ∧
    (0 < c →
      ((commitCalls c p sb).getD ((commitCalls c p sb).length - 1) (0, "")).1 =
        if c % p = 0 then p else c % p) := by
  have hlen : (commitCalls c p sb).length = commitSeqCount c p := by
    simp [commitCalls]
  refine ⟨hlen.trans (commitSeqCount_eq_ceil c p hp), ?_, ?_⟩
  · intro i hi
    rw [hlen] at hi
    rw [commitCalls_getD c p i sb (by omega)]
    have : ¬(i = commitSeqCount c p - 1 ∧ ¬(c % p = 0)) := by
      rintro ⟨h1, _⟩; omega
    simp [blocksInSeq, this]
  · intro hc
    have hpos : 0 < commitSeqCount c p := by
      unfold commitSeqCount
      by_cases h : c % p = 0
      · have hdvd : p ∣ c := Nat.dvd_of_mod_eq_zero h
        have hpc : p ≤ c := Nat.le_of_dvd hc hdvd
        have h1 : 0 < c / p := Nat.div_pos hpc hp
        omega
      · simp [h]
    rw [hlen]
    rw [commitCalls_getD c p (commitSeqCount c p - 1) sb (by omega)]
    by_cases h : c % p = 0
    · have : ¬(commitSeqCount c p - 1 = commitSeqCount c p - 1 ∧ ¬(c % p = 0)) := by
        rintro ⟨_, h2⟩; exact h2 h
      simp [blocksInSeq, this, h]
    · simp [blocksInSeq, h]

/-- C1 counterexample to the claim as stated: with no uploaded blocks the
commit phase issues zero commitBlockBlob calls, not one empty blob
sequence. -/
theorem commit_phase_zero_blocks_counterexample :
    commitCalls 0 50000 false = [] ∧ (commitCalls 0 50000 false).length = 0 :=
  ⟨rfl, rfl⟩

/-- Witness for commit_phase_calls at blockCount 5, blocksPerBlob 2 (the
specification's own five-block scenario). -/
theorem commit_phase_calls_witness :
    (commitCalls 5 2 false).length = 3 ∧
    ((commitCalls 5 2 false).getD 0 (0, "")).1 = 2 ∧
    ((commitCalls 5 2 false).getD 2 (0, "")).1 = 1 := by
  have h1 := (commit_phase_calls 5 2 false (by decide)).1
  have h2 := (commit_phase_calls 5 2 false (by decide)).2.1 0 (by simp [h1])
  have h3 := (commit_phase_calls 5 2 false (by decide)).2.2 (by decide)
  rw [h1] at h3
  norm_num at h1 h3
  exact ⟨h1, h2, h3⟩

/-! ## putBlock size guard (claim C2) -/

/-- C2 (code bug): the putBlock size guard compares the block length with
StreamUpload.blockSize, a static property that does not exist (the class
only has defaultBlockSize and maxBlockSize statics; blockSize is an
instance accessor).  The comparison with undefined is always false, so the
guard never fires and the request is issued even for a buffer one byte
beyond the documented 100MB cap. -/
theorem putBlock_size_guard_never_fires :
    streamUploadStatics "blockSize" = none ∧
    (∀ len, putBlockSizeCheckTriggers len = false) ∧
    (∀ len, putBlockIssuesRequest len = true) ∧
    putBlockIssuesRequest (maxBlockSize + 1) = true ∧ maxBlockSize = 104857600 :=
  ⟨rfl, fun _ => rfl, fun _ => rfl, rfl, rfl⟩

/-! ## Final-response status handling (claim C3) -/

/-- C3 (code bug): the final-response check in putBlock and commitBlockBlob
uses statusCode > 300 where the comment above it says non-2xx, so the
non-2xx status 300 is treated as success: the operation returns the
response augmented with the blob URL instead of failing. -/
theorem response_300_treated_as_success :
    responseIsError 300 = false ∧
    handleResponse 300 "Multiple Choices" "https://a.blob.core.windows.net/c/f" =
      Except.ok (300, "Multiple Choices", "https://a.blob.core.windows.net/c/f") ∧
    (∀ s : Nat, responseIsError s = true ↔ (s ≠ 0 ∧ (s < 200 ∨ 300 < s))) := by
  refine ⟨rfl, rfl, fun s => ?_⟩
  simp only [responseIsError, Bool.and_eq_true, bne_iff_ne, ne_eq, Bool.or_eq_true,
    decide_eq_true_eq]

/-! ## Retry policy (claim C6) -/

theorem retryAttempts_le (strat : AttemptOutcome → Bool) :
    ∀ fuel outs, retryAttempts strat fuel outs ≤ fuel := by
  intro fuel
  induction fuel using Nat.strong_induction_on with
  | _ fuel ih =>
    match fuel with
    | 0 => intro outs; simp [retryAttempts]
    | 1 => intro outs; simp [retryAttempts]
    | n + 2 =>
      intro outs
      simp only [retryAttempts]
      split
      · have := ih (n + 1) (by omega) (fun i => outs (i + 1))
        omega
      · omega

/-- C6 (confirmed): the shared retry strategy retries exactly on a
transport-level error or a 5xx status, never on 4xx; both putBlock and
commitBlockBlob pass maxAttempts 3 to the request library, so each call
makes at most 3 attempts. -/
theorem retry_policy (o : AttemptOutcome) (outs : Nat → AttemptOutcome) :
    (requestRetryStrategy o = true ↔
      (o.transportError = true ∨ (500 ≤ o.statusCode ∧ o.statusCode ≤ 599))) ∧
    (o.transportError = false → 400 ≤ o.statusCode → o.statusCode ≤ 499 →
      requestRetryStrategy o = false) ∧
    putBlockMaxAttempts = 3 ∧ commitMaxAttempts = 3 ∧
    retryAttempts requestRetryStrategy putBlockMaxAttempts outs ≤ 3 ∧
    retryAttempts requestRetryStrategy commitMaxAttempts outs ≤ 3 := by
  refine ⟨?_, ?_, rfl, rfl, retryAttempts_le _ _ _, retryAttempts_le _ _ _⟩
  · rcases o with ⟨te, sc⟩
    cases te
    · simp [requestRetryStrategy]
      omega
    · simp [requestRetryStrategy]
  · intro h1 h2 h3
    simp [requestRetryStrategy, h1]
    omega

/-- Witness for retry_policy: a 404 response is never retried. -/
theorem retry_policy_witness :
    requestRetryStrategy ⟨false, 404⟩ = false ∧
    retryAttempts requestRetryStrategy putBlockMaxAttempts (fun _ => ⟨false, 404⟩) ≤ 3 :=
  ⟨(retry_policy ⟨false, 404⟩ (fun _ => ⟨false, 404⟩)).2.1 rfl (by decide) (by decide),
   (retry_policy ⟨false, 404⟩ (fun _ => ⟨false, 404⟩)).2.2.2.2.1⟩

/-! ## singleBlob overflow (claim C9) -/

theorem processChunks_overflow (p : Nat) (hp : 0 < p) :
    ∀ n cc, 1 ≤ n → p < cc + n →
      processChunks p true cc n =
        Except.error "singleBlob option is set, but stream is too big to fit one blob" := by
  intro n
  induction n with
  | zero => intro cc h1 _; omega
  | succ n ih =>
    intro cc _ h2
    simp only [processChunks]
    by_cases hcc : p ≤ cc
    · have hdiv : 0 < cc / p := Nat.div_pos hcc hp
      simp [hdiv]
    · have h0 : cc / p = 0 := Nat.div_eq_of_lt (by omega)
      simp only [h0, gt_iff_lt, Nat.lt_irrefl, and_false, if_neg, not_false_iff]
      cases n with
      | zero => omega
      | succ m =>
        rw [ih (cc + 1) (by omega) (by omega)]
        rfl

/-- C9 (confirmed): with the singleBlob option set, a stream that chunks
into more than blocksPerBlob blocks makes upload() reject with the
stream-too-big error instead of starting a second blob sequence. -/
theorem singleBlob_overflow_rejects (p n : Nat) (hp : 0 < p) (hn : p < n) :
    uploadPhase1 p true n =
      Except.error "singleBlob option is set, but stream is too big to fit one blob" :=
  processChunks_overflow p hp n 0 (by omega) (by omega)

/-- Witness for singleBlob_overflow_rejects: three blocks with two blocks
per blob. -/
theorem singleBlob_overflow_rejects_witness :
    uploadPhase1 2 true 3 =
      Except.error "singleBlob option is set, but stream is too big to fit one blob" :=
  singleBlob_overflow_rejects 2 3 (by decide) (by decide)

/-! ## Base64 roundtrip and block ids (claim C4) -/

theorem sextetVal_sextetChar : ∀ v, v < 64 → sextetVal (sextetChar v) = some v := by
  decide

theorem sextetChar_ne_pad : ∀ v, v < 64 → sextetChar v ≠ '=' := by
  decide

theorem base64_roundtrip : ∀ l : List Nat, (∀ b ∈ l, b < 256) →
    base64DecodeChars (base64EncodeBytes l) = some l := by
  intro l
  induction l using base64EncodeBytes.induct with
  | case1 b0 b1 b2 rest ih =>
    intro h
    have hb0 : b0 < 256 := h b0 (by simp)
    have hb1 : b1 < 256 := h b1 (by simp)
    have hb2 : b2 < 256 := h b2 (by simp)
    have h0 := sextetVal_sextetChar (b0 / 4) (by omega)
    have h1 := sextetVal_sextetChar ((b0 % 4) * 16 + b1 / 16) (by omega)
    have h2 := sextetVal_sextetChar ((b1 % 16) * 4 + b2 / 64) (by omega)
    have h3 := sextetVal_sextetChar (b2 % 64) (by omega)
    have hne2 := sextetChar_ne_pad ((b1 % 16) * 4 + b2 / 64) (by omega)
    have hne3 := sextetChar_ne_pad (b2 % 64) (by omega)
    have hrest := ih (fun b hb => h b (by simp [hb]))
    simp only [base64EncodeBytes, base64DecodeChars, h0, h1, h2, h3, hne2, hne3,
      Option.bind_eq_bind, Option.some_bind, if_neg, hrest]
    refine congrArg some ?_
    have e0 : b0 / 4 * 4 + ((b0 % 4) * 16 + b1 / 16) / 16 = b0 := by omega
    have e1 : ((b0 % 4) * 16 + b1 / 16) % 16 * 16 + ((b1 % 16) * 4 + b2 / 64) / 4 = b1 := by
      omega
    have e2 : ((b1 % 16) * 4 + b2 / 64) % 4 * 64 + b2 % 64 = b2 := by omega
    rw [e0, e1, e2]
  | case2 b0 b1 =>
    intro h
    have hb0 : b0 < 256 := h b0 (by simp)
    have hb1 : b1 < 256 := h b1 (by simp)
    have h0 := sextetVal_sextetChar (b0 / 4) (by omega)
    have h1 := sextetVal_sextetChar ((b0 % 4) * 16 + b1 / 16) (by omega)
    have h2 := sextetVal_sextetChar ((b1 % 16) * 4) (by omega)
    have hne2 := sextetChar_ne_pad ((b1 % 16) * 4) (by omega)
    simp only [base64EncodeBytes, base64DecodeChars, h0, h1, h2, hne2,
      Option.bind_eq_bind, Option.some_bind, if_neg, if_pos rfl]
    refine congrArg some ?_
    have e0 : b0 / 4 * 4 + ((b0 % 4) * 16 + b1 / 16) / 16 = b0 := by omega
    have e1 : ((b0 % 4) * 16 + b1 / 16) % 16 * 16 + (b1 % 16) * 4 / 4 = b1 := by omega
    rw [e0, e1]
  | case3 b0 =>
    intro h
    have hb0 : b0 < 256 := h b0 (by simp)
    have h0 := sextetVal_sextetChar (b0 / 4) (by omega)
    have h1 := sextetVal_sextetChar ((b0 % 4) * 16) (by omega)
    simp only [base64EncodeBytes, base64DecodeChars, h0, h1,
      Option.bind_eq_bind, Option.some_bind, if_pos rfl]
    refine congrArg some ?_
    have e0 : b0 / 4 * 4 + (b0 % 4) * 16 / 16 = b0 := by omega
    rw [e0]
  | case4 =>
    intro _
    rfl

theorem digitCharToNat : ∀ k, k < 10 → (Char.ofNat (48 + k)).toNat = 48 + k := by
  decide

theorem digitCharLt : ∀ b, b < 10 → ∀ a, a < b →
    Char.ofNat (48 + a) < Char.ofNat (48 + b) := by
  decide

theorem natToCharsAux_fuel (n : Nat) : ∀ fuel1 fuel2, n < fuel1 → n < fuel2 →
    natToCharsAux fuel1 n = natToCharsAux fuel2 n := by
  induction n using Nat.strong_induction_on with
  | _ n ih =>
    intro fuel1 fuel2 h1 h2
    match fuel1, fuel2 with
    | f1 + 1, f2 + 1 =>
      simp only [natToCharsAux]
      by_cases hn : n < 10
      · simp [hn]
      · simp only [hn, if_neg, if_false]
        rw [ih (n / 10) (by omega) f1 (f2 + 1) (by omega) (by omega),
          ih (n / 10) (by omega) (f2 + 1) f2 (by omega) (by omega)]

theorem natToChars_small (n : Nat) (h : n < 10) :
    natToChars n = [Char.ofNat (48 + n)] := by
  simp [natToChars, natToCharsAux, h]

theorem natToChars_large (n : Nat) (h : ¬ n < 10) :
    natToChars n = natToChars (n / 10) ++ [Char.ofNat (48 + n % 10)] := by
  unfold natToChars
  conv_lhs => rw [natToCharsAux]
  rw [if_neg h, natToCharsAux_fuel (n / 10) n (n / 10 + 1) (by omega) (by omega)]

theorem lowDigitChars_length : ∀ w n, (lowDigitChars w n).length = w := by
  intro w
  induction w with
  | zero => intro n; rfl
  | succ w ih => intro n; simp [lowDigitChars, ih]

theorem lowDigitChars_mem : ∀ w n c, c ∈ lowDigitChars w n →
    ∃ k, k < 10 ∧ c = Char.ofNat (48 + k) := by
  intro w
  induction w with
  | zero => intro n c hc; simp [lowDigitChars] at hc
  | succ w ih =>
    intro n c hc
    simp only [lowDigitChars, List.mem_cons] at hc
    rcases hc with hc | hc
    · exact ⟨n % 10, Nat.mod_lt _ (by omega), hc⟩
    · exact ih (n / 10) c hc

theorem padLow : ∀ w n, 1 ≤ w → n < 10 ^ w →
    (lowDigitChars w n).reverse =
      List.replicate (w - (natToChars n).length) '0' ++ natToChars n := by
  intro w
  induction w with
  | zero => intro n h1 _; omega
  | succ w ih =>
    intro n h1 h2
    by_cases hw : w = 0
    · subst hw
      rw [pow_one] at h2
      simp [lowDigitChars, natToChars_small n h2, Nat.mod_eq_of_lt h2]
    · have hw1 : 1 ≤ w := by omega
      have hps : (10 : Nat) ^ (w + 1) = 10 ^ w * 10 := pow_succ 10 w
      have hd : n / 10 < 10 ^ w := by omega
      simp only [lowDigitChars, List.reverse_cons]
      rw [ih (n / 10) hw1 hd]
      by_cases hn : n < 10
      · have h10 : n / 10 = 0 := by omega
        rw [h10, natToChars_small 0 (by omega), natToChars_small n hn,
          Nat.mod_eq_of_lt hn]
        have hch : Char.ofNat (48 + 0) = '0' := rfl
        rw [hch]
        have hrep : List.replicate (w - 1) ('0' : Char) ++ ['0'] =
            List.replicate w '0' := by
          conv_rhs => rw [show w = (w - 1) + 1 by omega]
          rw [List.replicate_succ']
        simp only [List.length_cons, List.length_nil, List.append_assoc]
        rw [show w + 1 - 1 = w by omega, ← hrep]
        simp
      · rw [natToChars_large n hn]
        simp only [List.length_append, List.length_cons, List.length_nil,
          List.append_assoc]
        rw [show w + 1 - ((natToChars (n / 10)).length + (0 + 1)) =
          w - (natToChars (n / 10)).length by omega]

theorem zeroPad_eq_lowRev (w n : Nat) (hw : 1 ≤ w) (hn : n < 10 ^ w) :
    zeroPad n w = String.mk ((lowDigitChars w n).reverse) := by
  unfold zeroPad
  simp only [if_neg (by omega : ¬ w = 0)]
  rw [padLow w n hw hn]

theorem valLow : ∀ w n, n < 10 ^ w → digitsVal ((lowDigitChars w n).reverse) = n := by
  intro w
  induction w with
  | zero =>
    intro n h
    rw [pow_zero] at h
    have h0 : n = 0 := by omega
    subst h0
    rfl
  | succ w ih =>
    intro n h
    have hps : (10 : Nat) ^ (w + 1) = 10 ^ w * 10 := pow_succ 10 w
    have hd : n / 10 < 10 ^ w := by omega
    simp only [lowDigitChars, List.reverse_cons]
    unfold digitsVal
    rw [List.foldl_append]
    have hval := ih (n / 10) hd
    unfold digitsVal at hval
    rw [hval]
    simp only [List.foldl_cons, List.foldl_nil]
    rw [digitCharToNat (n % 10) (Nat.mod_lt _ (by omega))]
    omega

theorem lex_append_eqlen : ∀ l1 l2 t1 t2 : List Char, l1.length = l2.length →
    List.Lex (fun a b => a < b) l1 l2 →
    List.Lex (fun a b => a < b) (l1 ++ t1) (l2 ++ t2) := by
  intro l1 l2 t1 t2 hlen h
  induction h with
  | nil => simp at hlen
  | @cons a la lb h ih =>
    simp only [List.cons_append]
    exact List.Lex.cons (ih (by simpa using hlen))
  | @rel a la b lb hr =>
    simp only [List.cons_append]
    exact List.Lex.rel hr

theorem lex_append_single : ∀ (l : List Char) (a b : Char) (t1 t2 : List Char),
    a < b → List.Lex (fun x y => x < y) (l ++ a :: t1) (l ++ b :: t2) := by
  intro l a b t1 t2 hab
  induction l with
  | nil => exact List.Lex.rel hab
  | cons c l ih => exact List.Lex.cons ih

theorem lowRevMono : ∀ w m n, m < n → n < 10 ^ w →
    List.Lex (fun a b => a < b) (lowDigitChars w m).reverse (lowDigitChars w n).reverse := by
  intro w
  induction w with
  | zero =>
    intro m n h1 h2
    rw [pow_zero] at h2
    omega
  | succ w ih =>
    intro m n h1 h2
    have hps : (10 : Nat) ^ (w + 1) = 10 ^ w * 10 := pow_succ 10 w
    have hn10 : n / 10 < 10 ^ w := by omega
    simp only [lowDigitChars, List.reverse_cons]
    rcases Nat.lt_or_ge (m / 10) (n / 10) with hlt | hge
    · exact lex_append_eqlen _ _ _ _
        (by simp [lowDigitChars_length]) (ih (m / 10) (n / 10) hlt hn10)
    · have heq : m / 10 = n / 10 := by omega
      rw [heq]
      have hmod : m % 10 < n % 10 := by omega
      exact lex_append_single _ _ _ _ _
        (digitCharLt (n % 10) (Nat.mod_lt _ (by omega)) (m % 10) hmod)

/-- C4 (amended): for every n at most 49999, generateBlockId n is the
base64 encoding of the five-digit zero-padded decimal string of n:
base64-decoding it recovers exactly that string, which has five characters
and numeric value n; and those decoded five-digit strings (not the base64
strings themselves, see the counterexample) are strictly increasing in n
in lexicographic order. -/
theorem generateBlockId_decodes (m n : Nat) (hn : n ≤ 49999) :
    (base64DecodeChars (generateBlockId n).data = some (asciiBytes (zeroPad n 5)) ∧
     (zeroPad n 5).length = 5 ∧
     digitsVal (zeroPad n 5).data = n) ∧
    (m < n → List.Lex (fun a b => a < b) (zeroPad m 5).data (zeroPad n 5).data) := by
  have h5 : n < 10 ^ 5 := by norm_num; omega
  have hzp := zeroPad_eq_lowRev 5 n (by omega) h5
  have hbytes : ∀ b ∈ asciiBytes (zeroPad n 5), b < 256 := by
    intro b hb
    simp only [asciiBytes, hzp, List.mem_map] at hb
    obtain ⟨c, hc, hcb⟩ := hb
    rw [List.mem_reverse] at hc
    obtain ⟨k, hk, hck⟩ := lowDigitChars_mem 5 n c hc
    subst hck
    rw [digitCharToNat k hk] at hcb
    omega
  refine ⟨⟨?_, ?_, ?_⟩, ?_⟩
  · unfold generateBlockId
    exact base64_roundtrip (asciiBytes (zeroPad n 5)) hbytes
  · rw [hzp]
    simp [String.length, lowDigitChars_length]
  · rw [hzp]
    exact valLow 5 n h5
  · intro hmn
    have hm5 : m < 10 ^ 5 := by omega
    rw [hzp, zeroPad_eq_lowRev 5 m (by omega) hm5]
    exact lowRevMono 5 m n hmn h5

/-- C4 counterexample to the claim as stated: the base64 block ids are not
strictly increasing in lexicographic string order; the id of block 400
sorts strictly before the id of block 300. -/
theorem generateBlockId_not_monotone_counterexample :
    (300 : Nat) < 400 ∧ generateBlockId 400 < generateBlockId 300 := by
  refine ⟨by norm_num, ?_⟩
  refine String.lt_iff_toList_lt.mpr ?_
  decide

/-- Witness for generateBlockId_decodes at n = 1, m = 0. -/
theorem generateBlockId_decodes_witness :
    base64DecodeChars (generateBlockId 1).data = some (asciiBytes (zeroPad 1 5)) ∧
    List.Lex (fun a b : Char => a < b) (zeroPad 0 5).data (zeroPad 1 5).data :=
  ⟨((generateBlockId_decodes 0 1 (by decide)).1).1,
   (generateBlockId_decodes 0 1 (by decide)).2 (by decide)⟩

/-! ## Blob-name validation (claim C7) -/

theorem validContainer_no_slash (c : List Char) (h : validContainer c = true) :
    ∀ x ∈ c, x ≠ '/' := by
  intro x hx
  unfold validContainer at h
  simp only [Bool.or_eq_true, beq_iff_eq, Bool.and_eq_true, decide_eq_true_eq,
    List.all_eq_true] at h
  rcases h with h | h
  · subst h
    simp only [List.mem_cons, List.not_mem_nil, or_false] at hx
    rcases hx with rfl | rfl | rfl | rfl | rfl <;> decide
  · obtain ⟨⟨⟨⟨_, _⟩, hall⟩, _⟩, _⟩ := h
    have := hall x hx
    intro hslash
    subst hslash
    simp [isLowerAlnumHyphen, isLowerAlnum] at this

theorem takeWhile_append_sat (p : Char → Bool) :
    ∀ (l1 : List Char) (y : Char) (l2 : List Char),
    (∀ x ∈ l1, p x = true) → p y = false →
    List.takeWhile p (l1 ++ y :: l2) = l1 := by
  intro l1
  induction l1 with
  | nil =>
    intro y l2 _ hy
    simp [List.takeWhile_cons, hy]
  | cons x l1 ih =>
    intro y l2 hall hy
    have hx : p x = true := hall x (by simp)
    simp [List.takeWhile_cons, hx,
      ih y l2 (fun z hz => hall z (by simp [hz])) hy]

theorem takeWhile_short (p : Char → Bool) :
    ∀ l : List Char, (l.takeWhile p).length < l.length →
    ∃ y t, l = l.takeWhile p ++ y :: t ∧ p y = false := by
  intro l
  induction l with
  | nil => intro h; simp at h
  | cons x l ih =>
    intro h
    by_cases hx : p x = true
    · simp only [List.takeWhile_cons, hx, if_true, List.length_cons] at h
      obtain ⟨y, t, hsplit, hy⟩ := ih (by simpa using h)
      refine ⟨y, t, ?_, hy⟩
      simp only [List.takeWhile_cons, hx, if_true, List.cons_append]
      rw [← hsplit]
    · have hx2 : p x = false := by
        cases hpx : p x
        · rfl
        · exact absurd hpx hx
      refine ⟨x, l, ?_, hx2⟩
      simp [List.takeWhile_cons, hx2]

theorem blobRegexMatch_iff : ∀ l : List Char, (blobRegexMatch l = true ↔
    ∃ a c b, l = a ++ '/' :: (c ++ '/' :: b) ∧ validContainer c = true) := by
  intro l
  induction l with
  | nil =>
    simp only [blobRegexMatch, Bool.false_eq_true, false_iff]
    rintro ⟨a, c, b, hsplit, _⟩
    cases a <;> simp at hsplit
  | cons c0 rest ih =>
    simp only [blobRegexMatch, Bool.or_eq_true, Bool.and_eq_true, beq_iff_eq]
    constructor
    · rintro (⟨hc0, hchk⟩ | h)
      · subst hc0
        unfold checkContainerAt at hchk
        simp only [Bool.and_eq_true, decide_eq_true_eq] at hchk
        obtain ⟨hlen, hvc⟩ := hchk
        obtain ⟨y, t, hsplit, hy⟩ := takeWhile_short _ rest hlen
        have hy2 : y = '/' := by simpa using hy
        subst hy2
        exact ⟨[], rest.takeWhile (fun c => c != '/'), t, by rw [← hsplit]; rfl, hvc⟩
      · obtain ⟨a, c, b, hsplit, hvc⟩ := ih.mp h
        exact ⟨c0 :: a, c, b, by rw [hsplit]; rfl, hvc⟩
    · rintro ⟨a, c, b, hsplit, hvc⟩
      cases a with
      | nil =>
        left
        simp only [List.nil_append] at hsplit
        injection hsplit with h1 h2
        refine ⟨h1, ?_⟩
        subst h2
        unfold checkContainerAt
        have hall : ∀ x ∈ c, (fun d => d != '/') x = true := by
          intro x hx
          simpa using validContainer_no_slash c hvc x hx
        rw [takeWhile_append_sat _ c '/' b hall (by simp)]
        simp only [Bool.and_eq_true, decide_eq_true_eq, hvc, and_true]
        simp [List.length_append]
      | cons a0 arest =>
        right
        apply ih.mpr
        injection hsplit with h1 h2
        exact ⟨arest, c, b, h2, hvc⟩

/-- C7 counterexample to the claim as stated: the blob string consisting
of a valid container and an empty path ('/abc/') is accepted by the
constructor validation, although the claimed form requires a path of 1 to
1024 characters (claimBlobForm, written from the claim, rejects it). -/
theorem blobParamValid_counterexample :
    blobParamValid "/abc/" = true ∧ claimBlobForm "/abc/" = false :=
  ⟨by decide, by decide⟩

/-- C7 (amended): the validation is an unanchored substring search: the
constructor accepts a blob string exactly when it contains, anywhere, a
slash, a valid container (the literal root container, or 3 to 63 lowercase
alphanumerics and hyphens not starting or ending with a hyphen), and
another slash; what follows the second slash is unconstrained (in
particular the path may be empty or longer than 1024 characters), and so
is what precedes the first slash.  The four examples of the claim behave
as listed. -/
theorem blobParamValid_iff (s : String) :
    (blobParamValid s = true ↔
      ∃ a c b, s.data = a ++ '/' :: (c ++ '/' :: b) ∧ validContainer c = true) ∧
    blobParamValid "/container/path/to/file" = true ∧
    blobParamValid "/$root/file" = true ∧
    blobParamValid "/Invalid_Container/file" = false ∧
    blobParamValid "file" = false := by
  refine ⟨?_, by decide, by decide, by decide, by decide⟩
  unfold blobParamValid
  constructor
  · intro h
    simp only [Bool.and_eq_true] at h
    exact (blobRegexMatch_iff s.data).mp h.2
  · intro hex
    have hm := (blobRegexMatch_iff s.data).mpr hex
    obtain ⟨a, c, b, hsplit, _⟩ := hex
    have hne : (s == "") = false := by
      cases hb : (s == "")
      · rfl
      · have hs : s = "" := by simpa using hb
        subst hs
        simp at hsplit
    simp [hm, hne]

/-! ## JS object lemmas -/

theorem objLookup_objSet_self : ∀ (o : JSObj) (k v : String),
    objLookup (objSet o k v) k = some v := by
  intro o k v
  induction o with
  | nil => simp [objSet, objLookup]
  | cons kv rest ih =>
    by_cases h : kv.1 = k
    · simp [objSet, h, objLookup]
    · simp [objSet, h, objLookup, ih]

theorem objLookup_objSet_ne : ∀ (o : JSObj) (k v k2 : String), k2 ≠ k →
    objLookup (objSet o k v) k2 = objLookup o k2 := by
  intro o k v k2 hne
  have hne2 : ¬ k = k2 := fun hh => hne hh.symm
  induction o with
  | nil =>
    simp [objSet, objLookup, hne2]
  | cons kv rest ih =>
    by_cases h : kv.1 = k
    · subst h
      simp [objSet, objLookup, hne2]
    · simp only [objSet, if_neg h, objLookup]
      by_cases h2 : kv.1 = k2
      · simp [h2]
      · simp [h2, ih]

theorem objKeys_objSet_char : ∀ (o : JSObj) (k v : String),
    objKeys (objSet o k v) =
      if k ∈ objKeys o then objKeys o else objKeys o ++ [k] := by
  intro o k v
  induction o with
  | nil => simp [objSet, objKeys]
  | cons kv rest ih =>
    by_cases h : kv.1 = k
    · simp [objSet, h, objKeys]
    · simp only [objSet, if_neg h, objKeys, List.map_cons, List.mem_cons]
      have hne : ¬ k = kv.1 := fun hh => h hh.symm
      by_cases hk : k ∈ objKeys rest
      · simp only [objKeys] at hk
        simp [hk, hne, objKeys] at ih ⊢
        exact ih
      · simp only [objKeys] at hk
        simp [hk, hne, objKeys] at ih ⊢
        exact ih

theorem objKeys_objSet_nodup (o : JSObj) (k v : String)
    (h : (objKeys o).Nodup) : (objKeys (objSet o k v)).Nodup := by
  rw [objKeys_objSet_char]
  by_cases hk : k ∈ objKeys o
  · simpa [hk] using h
  · simp [hk, List.nodup_append, h]

theorem mem_objKeys_objSet (o : JSObj) (k v x : String) :
    x ∈ objKeys (objSet o k v) ↔ x ∈ objKeys o ∨ x = k := by
  rw [objKeys_objSet_char]
  by_cases hk : k ∈ objKeys o
  · simp only [hk, if_pos]
    constructor
    · exact Or.inl
    · rintro (h | rfl)
      · exact h
      · exact hk
  · simp [hk]

theorem objLookup_objAssign : ∀ (src t : JSObj) (k : String),
    objLookup (objAssign t src) k =
      match objLookupLast src k with
      | some v => some v
      | none => objLookup t k := by
  intro src
  induction src with
  | nil => intro t k; simp [objAssign, objLookupLast]
  | cons kv rest ih =>
    intro t k
    rw [show objAssign t (kv :: rest) = objAssign (objSet t kv.1 kv.2) rest from rfl,
      ih]
    simp only [objLookupLast]
    cases h : objLookupLast rest k with
    | some v => simp
    | none =>
      simp only
      by_cases hk : kv.1 = k
      · subst hk
        simp [objLookup_objSet_self]
      · simp [hk, objLookup_objSet_ne t kv.1 kv.2 k (fun hh => hk hh.symm)]

theorem objLookup_objAssign_nil (src : JSObj) (k : String) :
    objLookup (objAssign [] src) k = objLookupLast src k := by
  rw [objLookup_objAssign]
  cases objLookupLast src k <;> simp [objLookup]

theorem objLookupLast_none : ∀ (o : JSObj) (k : String), k ∉ objKeys o →
    objLookupLast o k = none := by
  intro o k
  induction o with
  | nil => intro _; rfl
  | cons kv rest ih =>
    intro h
    simp only [objKeys, List.map_cons, List.mem_cons] at h
    push_neg at h
    have hne2 : ¬ kv.1 = k := fun hh => h.1 hh.symm
    simp only [objLookupLast, ih (by simpa [objKeys] using h.2)]
    simp [hne2]

theorem objLookup_none : ∀ (o : JSObj) (k : String), k ∉ objKeys o →
    objLookup o k = none := by
  intro o k
  induction o with
  | nil => intro _; rfl
  | cons kv rest ih =>
    intro h
    simp only [objKeys, List.map_cons, List.mem_cons] at h
    push_neg at h
    have hne2 : ¬ kv.1 = k := fun hh => h.1 hh.symm
    simp only [objLookup, ih (by simpa [objKeys] using h.2)]
    simp [hne2]

theorem objLookup_isSome : ∀ (o : JSObj) (k : String), k ∈ objKeys o →
    ∃ v, objLookup o k = some v := by
  intro o k
  induction o with
  | nil => intro h; simp [objKeys] at h
  | cons kv rest ih =>
    intro h
    by_cases hk : kv.1 = k
    · exact ⟨kv.2, by simp [objLookup, hk]⟩
    · simp only [objKeys, List.map_cons, List.mem_cons] at h
      rcases h with h | h
      · exact absurd h.symm hk
      · obtain ⟨v, hv⟩ := ih (by simpa [objKeys] using h)
        exact ⟨v, by simp [objLookup, hk, hv]⟩

theorem mem_objKeys_objAssign : ∀ (src t : JSObj) (x : String),
    x ∈ objKeys (objAssign t src) → x ∈ objKeys t ∨ x ∈ objKeys src := by
  intro src
  induction src with
  | nil => intro t x h; exact Or.inl h
  | cons kv rest ih =>
    intro t x h
    rw [show objAssign t (kv :: rest) = objAssign (objSet t kv.1 kv.2) rest from rfl] at h
    rcases ih (objSet t kv.1 kv.2) x h with h2 | h2
    · rcases (mem_objKeys_objSet t kv.1 kv.2 x).mp h2 with h3 | h3
      · exact Or.inl h3
      · exact Or.inr (by simp [objKeys, h3])
    · exact Or.inr (by simp [objKeys]; right; simpa [objKeys] using h2)

theorem objKeys_objAssign_nodup : ∀ (src t : JSObj),
    (objKeys t).Nodup → (objKeys (objAssign t src)).Nodup := by
  intro src
  induction src with
  | nil => intro t h; exact h
  | cons kv rest ih =>
    intro t h
    rw [show objAssign t (kv :: rest) = objAssign (objSet t kv.1 kv.2) rest from rfl]
    exact ih _ (objKeys_objSet_nodup t kv.1 kv.2 h)

theorem rebuild_lookup : ∀ (ks : List String) (o : JSObj) (k : String),
    (∀ x ∈ ks, x ∈ objKeys o) →
    objLookup (ks.map (fun k2 => (k2, (objLookup o k2).getD ""))) k =
      if k ∈ ks then objLookup o k else none := by
  intro ks
  induction ks with
  | nil => intro o k _; simp [objLookup]
  | cons k0 ks ih =>
    intro o k hks
    simp only [List.map_cons, objLookup]
    by_cases h : k0 = k
    · subst h
      obtain ⟨v, hv⟩ := objLookup_isSome o k0 (hks k0 (by simp))
      simp [hv]
    · rw [if_neg h, ih o k (fun x hx => hks x (by simp [hx]))]
      have hne2 : ¬ k = k0 := fun hh => h hh.symm
      by_cases hk : k ∈ ks
      · simp [hk, List.mem_cons]
      · simp [hk, List.mem_cons, hne2]

theorem objLookup_sortObject (o : JSObj) (k : String) :
    objLookup (sortObject o) k = objLookup o k := by
  unfold sortObject
  have hperm := List.perm_insertionSort (fun a b : String => a ≤ b) (objKeys o)
  rw [rebuild_lookup _ o k (fun x hx => hperm.mem_iff.mp hx)]
  by_cases hk : k ∈ objKeys o
  · simp [hperm.mem_iff, hk]
  · rw [if_neg (fun hh => hk (hperm.mem_iff.mp hh)), objLookup_none o k hk]

theorem objKeys_sortObject (o : JSObj) :
    objKeys (sortObject o) = (objKeys o).insertionSort (fun a b => a ≤ b) := by
  unfold sortObject objKeys
  rw [List.map_map]
  have hcomp : ((fun kv : String × String => kv.1) ∘
      fun k => (k, (objLookup o k).getD "")) = id := rfl
  rw [hcomp, List.map_id]

theorem mem_objKeys_sortObject (o : JSObj) (x : String) :
    x ∈ objKeys (sortObject o) ↔ x ∈ objKeys o := by
  rw [objKeys_sortObject]
  exact (List.perm_insertionSort (fun a b : String => a ≤ b) (objKeys o)).mem_iff

theorem sortObject_keys_pairwise (o : JSObj) (h : (objKeys o).Nodup) :
    (objKeys (sortObject o)).Pairwise (fun a b => a < b) := by
  rw [objKeys_sortObject]
  have hsorted : List.Sorted (fun a b : String => a ≤ b)
      ((objKeys o).insertionSort (fun a b => a ≤ b)) :=
    List.sorted_insertionSort _ _
  have hnodup : ((objKeys o).insertionSort (fun a b => a ≤ b)).Nodup :=
    (List.perm_insertionSort _ _).nodup_iff.mpr h
  exact (List.Pairwise.and hsorted hnodup).imp
    (fun hab => lt_of_le_of_ne hab.1 hab.2)

/-! ## Header invariants (claim C10) -/

theorem addCustomHeader_ok (a : Authorization) (n v : String) (a1 : Authorization)
    (h : addCustomHeader a n v = Except.ok a1) :
    a1.customHeaders = objSet a.customHeaders (toLowerStr n) v ∧ a1.date = a.date := by
  unfold addCustomHeader at h
  split_ifs at h
  injection h with h
  subst h
  exact ⟨rfl, rfl⟩

theorem applyCustomHeaders_state : ∀ (ops : List (String × String)) (a a2 : Authorization),
    applyCustomHeaders a ops = Except.ok a2 →
    a2.date = a.date ∧
    ((objKeys a.customHeaders).Nodup → (objKeys a2.customHeaders).Nodup) := by
  intro ops
  induction ops with
  | nil =>
    intro a a2 h
    simp only [applyCustomHeaders] at h
    injection h with h
    subst h
    exact ⟨rfl, id⟩
  | cons op rest ih =>
    intro a a2 h
    obtain ⟨n, v⟩ := op
    simp only [applyCustomHeaders] at h
    cases hadd : addCustomHeader a n v with
    | error e => rw [hadd] at h; exact absurd h (by simp)
    | ok a1 =>
      rw [hadd] at h
      obtain ⟨hcust, hdate⟩ := addCustomHeader_ok a n v a1 hadd
      obtain ⟨hd2, hnd2⟩ := ih a1 a2 h
      refine ⟨hd2.trans hdate, fun hnd => hnd2 ?_⟩
      rw [hcust]
      exact objKeys_objSet_nodup _ _ _ hnd

theorem headersOf_builtin (a : Authorization) :
    objLookup (headersOf a) "x-ms-date" = some a.date ∧
    objLookup (headersOf a) "x-ms-version" = some authApiVersion := by
  unfold headersOf
  constructor
  · rw [objLookup_sortObject, objLookup_objAssign]
    simp [objLookupLast]
  · rw [objLookup_sortObject, objLookup_objAssign]
    simp [objLookupLast]

theorem headersOf_pairwise (a : Authorization)
    (h : (objKeys a.customHeaders).Nodup) :
    (objKeys (headersOf a)).Pairwise (fun x y => x < y) := by
  unfold headersOf
  apply sortObject_keys_pairwise
  apply objKeys_objAssign_nodup
  apply objKeys_objAssign_nodup
  simp [objKeys]

/-- C10 (confirmed): however addCustomHeader is called (starting from a
state whose custom-header object has unique keys, as the constructor
creates it), the headers getter always binds x-ms-date to the built-in
construction date and x-ms-version to the built-in API version — a custom
header stored under either (lowercased) name is silently overridden,
because the built-ins are assigned last — and the keys of the mapping are
strictly ascending in lexicographic order. -/
theorem headers_invariant (a : Authorization) (ops : List (String × String))
    (a2 : Authorization) (hnd : (objKeys a.customHeaders).Nodup)
    (happ : applyCustomHeaders a ops = Except.ok a2) :
    objLookup (headersOf a2) "x-ms-date" = some a.date ∧
    objLookup (headersOf a2) "x-ms-version" = some authApiVersion ∧
    (objKeys (headersOf a2)).Pairwise (fun x y => x < y) := by
  obtain ⟨hdate, hndimp⟩ := applyCustomHeaders_state ops a a2 happ
  obtain ⟨h1, h2⟩ := headersOf_builtin a2
  exact ⟨by rw [h1, hdate], h2, headersOf_pairwise a2 (hndimp hnd)⟩

/-- Witness for headers_invariant: a custom header added under the name
X-MS-Date (lowercased to x-ms-date) is overridden by the built-in date. -/
theorem headers_invariant_witness :
    objLookup (headersOf ⟨"PUT", "/c/f", none, none, [],
      [("x-ms-date", "overridden"), ("x-ms-meta-tag", "v")],
      "DATE", none, none, none⟩) "x-ms-date" = some "DATE" ∧
    (objKeys (headersOf ⟨"PUT", "/c/f", none, none, [],
      [("x-ms-date", "overridden"), ("x-ms-meta-tag", "v")],
      "DATE", none, none, none⟩)).Pairwise (fun x y => x < y) := by
  have h := headers_invariant
    ⟨"PUT", "/c/f", none, none, [], [], "DATE", none, none, none⟩
    [("X-MS-Date", "overridden"), ("x-ms-meta-tag", "v")]
    ⟨"PUT", "/c/f", none, none, [],
      [("x-ms-date", "overridden"), ("x-ms-meta-tag", "v")],
      "DATE", none, none, none⟩
    (by simp [objKeys]) (by rfl)
  exact ⟨h.1, h.2.2⟩

/-! ## Shared-key signature (claim C5) -/

theorem generateSignature_sharedKey_eq (hmac : List Nat → String → List Nat)
    (a : Authorization) (nm k : String)
    (hname : a.storageAccountName = some nm)
    (hkey : a.storageAccountKey = some k)
    (htok : a.storageAccountSasToken = none) :
    generateSignature hmac a =
      Except.ok (some (String.mk (base64EncodeBytes
        (hmac (bufferFromBase64 k) (specCanonicalString a nm))))) := by
  simp only [generateSignature, hname, htok, hkey]
  simp only [specCanonicalString, canonHeaderBlock]
  rfl

/-- C5 (confirmed): in shared-key mode, generateSignature returns the
base64 encoding of the MAC (HMAC-SHA256 in the source, an abstract
function here) of the canonical string, keyed by the base64-decoded shared
key; the canonical string is the newline-joined sequence of the verb,
Content-MD5 or the empty string, Content-Type or the empty string, an
empty line, the canonicalized header block (each key-sorted header as name
colon value with embedded CR and LF replaced by spaces, one per line), and
the canonicalized resource (slash, account name, stored resource path).
It throws when credentials were never set. -/
theorem signature_canonical (hmac : List Nat → String → List Nat)
    (a : Authorization) (nm k : String)
    (hname : a.storageAccountName = some nm)
    (hkey : a.storageAccountKey = some k)
    (htok : a.storageAccountSasToken = none) :
    generateSignature hmac a =
      Except.ok (some (String.mk (base64EncodeBytes
        (hmac (bufferFromBase64 k) (specCanonicalString a nm))))) ∧
    (∀ b : Authorization, b.storageAccountName = none →
      generateSignature hmac b =
        Except.error "You must set storage account name and key or SAS token") :=
  ⟨generateSignature_sharedKey_eq hmac a nm k hname hkey htok,
   fun b hb => by simp only [generateSignature, hb]⟩

/-- Witness for signature_canonical at a concrete shared-key state and a
concrete MAC function. -/
theorem signature_canonical_witness :
    generateSignature (fun _ _ => [0])
      ⟨"PUT", "/c/f?comp=block", none, some "application/octet-stream",
        [("comp", "block")], [], "Mon, 01 Jan 2024 00:00:00 GMT",
        some "acct", some "a2V5", none⟩ =
      Except.ok (some (String.mk (base64EncodeBytes [0]))) ∧
    generateSignature (fun _ _ => [0])
      ⟨"PUT", "/c/f", none, none, [], [], "D", none, none, none⟩ =
      Except.error "You must set storage account name and key or SAS token" :=
  ⟨(signature_canonical (fun _ _ => [0])
      ⟨"PUT", "/c/f?comp=block", none, some "application/octet-stream",
        [("comp", "block")], [], "Mon, 01 Jan 2024 00:00:00 GMT",
        some "acct", some "a2V5", none⟩ "acct" "a2V5" rfl rfl rfl).1,
   (signature_canonical (fun _ _ => [0])
      ⟨"PUT", "/c/f?comp=block", none, some "application/octet-stream",
        [("comp", "block")], [], "Mon, 01 Jan 2024 00:00:00 GMT",
        some "acct", some "a2V5", none⟩ "acct" "a2V5" rfl rfl rfl).2
    ⟨"PUT", "/c/f", none, none, [], [], "D", none, none, none⟩ rfl⟩

/-! ## Authorization header and querystring per credential mode (claim C8) -/

theorem requestHeaders_auth_lookup (hmac : List Nat → String → List Nat)
    (a : Authorization) (auth : Option String)
    (hauth : generateAuthorizationHeader hmac a = Except.ok auth)
    (hnm : "Authorization" ∉ objKeys (headersOf a)) :
    ∃ hs, requestHeaders hmac a = Except.ok hs ∧
      objLookup hs "Authorization" = auth := by
  unfold requestHeaders
  rw [hauth]
  rcases auth with _ | v0 <;> rcases cm : a.contentMD5 with _ | v1 <;>
    rcases ct : a.contentType with _ | v2 <;>
    exact ⟨_, rfl, by simp [objLookup_objAssign, objLookupLast, objLookup,
      objLookup_objAssign_nil, objLookupLast_none _ _ hnm]⟩

/-- C8 (confirmed): with a SAS token set, requestHeaders carries no
Authorization entry and querystring returns the token's parsed parameters,
with the fixed api-version parameter added, merged over the caller-supplied
query values; with a shared key set, requestHeaders carries an
Authorization entry of the form scheme, blank, account name, colon, base64
signature, and querystring returns exactly the caller-supplied query
values. -/
theorem auth_mode_headers_and_querystring (hmac : List Nat → String → List Nat)
    (a : Authorization)
    (hcust : ∀ kv ∈ a.customHeaders, kv.1 ≠ "Authorization") :
    (∀ tok, a.storageAccountSasToken = some tok →
      (∃ hs, requestHeaders hmac a = Except.ok hs ∧
        objLookup hs "Authorization" = none) ∧
      (∀ q, objLookup (querystring a) q =
        match objLookupLast
            (objSet (qsParse (strDrop1 tok)) "api-version" authApiVersion) q with
        | some v => some v
        | none => objLookupLast a.qsParams q)) ∧
    (∀ nm k, a.storageAccountName = some nm → a.storageAccountKey = some k →
      a.storageAccountSasToken = none →
      (∃ hs, requestHeaders hmac a = Except.ok hs ∧
        objLookup hs "Authorization" =
          some (authKeyType ++ " " ++ nm ++ ":" ++
            String.mk (base64EncodeBytes
              (hmac (bufferFromBase64 k) (specCanonicalString a nm))))) ∧
      querystring a = a.qsParams) := by
  have hnotmem : "Authorization" ∉ objKeys (headersOf a) := by
    intro hmem
    unfold headersOf at hmem
    have hmem2 := (mem_objKeys_sortObject _ _).mp hmem
    rcases mem_objKeys_objAssign _ _ _ hmem2 with h1 | h1
    · rcases mem_objKeys_objAssign _ _ _ h1 with h2 | h2
      · simp [objKeys] at h2
      · simp only [objKeys, List.mem_map] at h2
        obtain ⟨kv, hkv, hfst⟩ := h2
        exact hcust kv hkv hfst
    · simp [objKeys] at h1
  refine ⟨fun tok htok => ⟨?_, fun q => ?_⟩,
    fun nm k hname hkey htok => ⟨?_, ?_⟩⟩
  · have hauth : generateAuthorizationHeader hmac a = Except.ok none := by
      simp only [generateAuthorizationHeader, htok]
    exact requestHeaders_auth_lookup hmac a none hauth hnotmem
  · simp only [querystring, htok]
    rw [objLookup_objAssign]
    cases hc : objLookupLast
        (objSet (qsParse (strDrop1 tok)) "api-version" authApiVersion) q with
    | none => simp [objLookup_objAssign_nil]
    | some v => simp
  · have hsig := generateSignature_sharedKey_eq hmac a nm k hname hkey htok
    have hauth : generateAuthorizationHeader hmac a = Except.ok (some
        (authKeyType ++ " " ++ nm ++ ":" ++ String.mk (base64EncodeBytes
          (hmac (bufferFromBase64 k) (specCanonicalString a nm))))) := by
      simp only [generateAuthorizationHeader, htok, hsig, hname]
    exact requestHeaders_auth_lookup hmac a _ hauth hnotmem
  · simp only [querystring, htok]

/-- Witness for auth_mode_headers_and_querystring: a token-mode state and a
key-mode state. -/
theorem auth_mode_headers_and_querystring_witness :
    (∃ hs, requestHeaders (fun _ _ => [0])
        ⟨"PUT", "/c/f?comp=blocklist", none, some "application/octet-stream",
          [("comp", "blocklist")], [], "DATE", some "acct", none,
          some "?sv=1&sig=abc"⟩ = Except.ok hs ∧
      objLookup hs "Authorization" = none) ∧
    querystring
      ⟨"PUT", "/c/f?comp=block", none, none, [("comp", "block")], [],
        "DATE", some "acct", some "a2V5", none⟩ = [("comp", "block")] := by
  refine ⟨((auth_mode_headers_and_querystring (fun _ _ => [0])
      ⟨"PUT", "/c/f?comp=blocklist", none, some "application/octet-stream",
        [("comp", "blocklist")], [], "DATE", some "acct", none,
        some "?sv=1&sig=abc"⟩ (by simp)).1 "?sv=1&sig=abc" rfl).1, ?_⟩
  exact ((auth_mode_headers_and_querystring (fun _ _ => [0])
      ⟨"PUT", "/c/f?comp=block", none, none, [("comp", "block")], [],
        "DATE", some "acct", some "a2V5", none⟩ (by simp)).2
    "acct" "a2V5" rfl rfl rfl).2

end Azbak
